import Mathlib

/-!
Shallow embedding of the document change-detection pipeline of the
monitored-sites runner: the diff engine and state manager
(runner/StateManager.js), the file validator (runner/Downloader.js),
the extractor normalization (runner/Extractor.js), the step navigator
(runner/Navigator.js) and the error fingerprint (runner/index.js).

JavaScript strings are modelled as Lean `String`, absent (`undefined`)
fields as `Option`, byte buffers as `List Nat`, and JS `Map` objects as
association lists with last-insertion-wins lookup.  Effectful host
facilities (SHA-256, the current clock, the automation session) enter as
explicit parameters so every definition stays executable.
-/

/-- A document record as produced by the extractor and stored in the
per-site snapshot.  `url` is required by the data model; the other
fields may be absent.  A JS falsy string field (empty string) is kept
as `some ""` and the truthiness tests of the source are modelled
explicitly. -/
structure Document where
  title : Option String
  url : String
  date : Option String
  hash : Option String
  firstSeen : Option String
  id : Option String
deriving DecidableEq

/-- Reason attached to an `updated` diff entry. -/
inductive Reason where
  | hash_changed
  | url_changed
deriving DecidableEq

/-- One element of the `updated` bucket of a diff result:
`{ doc, previousDoc, reason }`. -/
structure UpdatedEntry where
  doc : Document
  previousDoc : Document
  reason : Reason
deriving DecidableEq

/-- Result of `StateManager.diff`. -/
structure DiffResult where
  new : List Document
  updated : List UpdatedEntry
  unchanged : List Document
deriving DecidableEq

/-- JS truthiness of `doc.hash`: present and non-empty. -/
def hashTruthy (d : Document) : Bool :=
  match d.hash with
  | some h => h ≠ ""
  | none => false

/-- `toLowerCase` on a string, computed character-wise over the
underlying list (kernel-reducible, unlike `String.toLower`). -/
def jsToLower (s : String) : String :=
  String.mk (s.data.map Char.toLower)

/-- `doc.title?.toLowerCase()` guarded by truthiness: the key under which
a document is indexed in `previousByTitle`, and the lookup key used for a
current document (`titleKey ? … : null`). -/
def titleKey (d : Document) : Option String :=
  match d.title with
  | some t => if t = "" then none else some (jsToLower t)
  | none => none

/-- Lookup in the `previousByUrl` map: `Map.set` overwrites, so `get`
returns the last inserted document with the given url. -/
def lastByUrl (prev : List Document) (u : String) : Option Document :=
  prev.reverse.find? (fun p => p.url == u)

/-- Lookup in the `previousByTitle` map: only documents with a truthy
title are inserted, keyed by the lower-cased title, last insertion
wins. -/
def lastByTitle (prev : List Document) (k : String) : Option Document :=
  prev.reverse.find? (fun p => titleKey p == some k)

/-- Classification of one current document inside the loop of
`StateManager.diff`. -/
inductive Classification where
  | isNew
  | isUpdated (previousDoc : Document) (reason : Reason)
  | isUnchanged
deriving DecidableEq

/-- The body of the per-document loop of `StateManager.diff`: check the
URL index first; on a URL hit compare hashes only when both are truthy;
otherwise fall back to the (case-insensitive) title index. -/
def classify (prev : List Document) (d : Document) : Classification :=
  match lastByUrl prev d.url with
  | some p =>
      if hashTruthy d && hashTruthy p && d.hash != p.hash then
        .isUpdated p .hash_changed
      else
        .isUnchanged
  | none =>
      match titleKey d with
      | some k =>
          match lastByTitle prev k with
          | some p => if p.url ≠ d.url then .isUpdated p .url_changed else .isNew
          | none => .isNew
      | none => .isNew

/-- The pure core of `StateManager.diff`: partition the current
documents into new / updated / unchanged against the previous
snapshot. -/
def diffLists (prev : List Document) : List Document → DiffResult
  | [] => ⟨[], [], []⟩
  | d :: rest =>
      let r := diffLists prev rest
      match classify prev d with
      | .isNew => ⟨d :: r.new, r.updated, r.unchanged⟩
      | .isUpdated p reason => ⟨r.new, ⟨d, p, reason⟩ :: r.updated, r.unchanged⟩
      | .isUnchanged => ⟨r.new, r.updated, d :: r.unchanged⟩

/-- A captured navigation step reference inside an error record
(only the fields feeding the fingerprint are relevant). -/
structure StepInfo where
  action : String
  selector : Option String
deriving DecidableEq

/-- Stored `lastError` entry of a site state. -/
structure ErrorRecord where
  fingerprint : String
  message : String
  step : Option StepInfo
  timestamp : String
  consecutiveCount : Nat
deriving DecidableEq

/-- Per-site persisted state. -/
structure SiteState where
  lastCheck : Option String
  documents : List Document
  lastError : Option ErrorRecord
deriving DecidableEq

/-- The whole state aggregate held by the state manager; `sites` is a
JS object modelled as an association list with unique keys, insertion
at the end. -/
structure AppState where
  version : Nat
  lastUpdated : Option String
  sites : List (String × SiteState)
deriving DecidableEq

/-- The entry lazily created by `getSiteState` on first access. -/
def freshSiteState : SiteState := ⟨none, [], none⟩

/-- Pure lookup of a site's entry in the aggregate. -/
def lookupSite (st : AppState) (siteId : String) : Option SiteState :=
  (st.sites.find? (fun kv => kv.1 == siteId)).map (fun kv => kv.2)

/-- `StateManager.getSiteState`: returns the site entry, creating an
empty one (a mutation of the aggregate) when the id has none. -/
def StateManager.getSiteState (st : AppState) (siteId : String) :
    AppState × SiteState :=
  match st.sites.find? (fun kv => kv.1 == siteId) with
  | some kv => (st, kv.2)
  | none =>
      ({ st with sites := st.sites ++ [(siteId, freshSiteState)] }, freshSiteState)

/-- `StateManager.diff`: reads (and possibly lazily creates) the site
entry, then runs the pure list diff against its stored documents. -/
def StateManager.diff (st : AppState) (siteId : String)
    (currentDocs : List Document) : AppState × DiffResult :=
  let p := StateManager.getSiteState st siteId
  (p.1, diffLists p.2.documents currentDocs)

-- Basic bucket-membership lemmas for the list diff.

theorem mem_new_iff (prev cur : List Document) (d : Document) :
    d ∈ (diffLists prev cur).new ↔ d ∈ cur ∧ classify prev d = .isNew := by
  induction cur with
  | nil => simp [diffLists]
  | cons c rest ih =>
      simp only [diffLists]
      rcases h : classify prev c with _ | ⟨p, r⟩ | _ <;>
        simp only [List.mem_cons] <;>
        constructor <;> intro hm
      · rcases hm with hm | hm
        · exact ⟨Or.inl hm, hm ▸ h⟩
        · exact ⟨Or.inr (ih.mp hm).1, (ih.mp hm).2⟩
      · rcases hm with ⟨hc | hc, hcl⟩
        · exact Or.inl hc
        · exact Or.inr (ih.mpr ⟨hc, hcl⟩)
      · exact ⟨Or.inr (ih.mp hm).1, (ih.mp hm).2⟩
      · rcases hm with ⟨hc | hc, hcl⟩
        · exact absurd (hc ▸ h) (by simp [hcl])
        · exact ih.mpr ⟨hc, hcl⟩
      · exact ⟨Or.inr (ih.mp hm).1, (ih.mp hm).2⟩
      · rcases hm with ⟨hc | hc, hcl⟩
        · exact absurd (hc ▸ h) (by simp [hcl])
        · exact ih.mpr ⟨hc, hcl⟩

theorem mem_unchanged_iff (prev cur : List Document) (d : Document) :
    d ∈ (diffLists prev cur).unchanged ↔
      d ∈ cur ∧ classify prev d = .isUnchanged := by
  induction cur with
  | nil => simp [diffLists]
  | cons c rest ih =>
      simp only [diffLists]
      rcases h : classify prev c with _ | ⟨p, r⟩ | _ <;>
        simp only [List.mem_cons] <;>
        constructor <;> intro hm
      · exact ⟨Or.inr (ih.mp hm).1, (ih.mp hm).2⟩
      · rcases hm with ⟨hc | hc, hcl⟩
        · exact absurd (hc ▸ h) (by simp [hcl])
        · exact ih.mpr ⟨hc, hcl⟩
      · exact ⟨Or.inr (ih.mp hm).1, (ih.mp hm).2⟩
      · rcases hm with ⟨hc | hc, hcl⟩
        · exact absurd (hc ▸ h) (by simp [hcl])
        · exact ih.mpr ⟨hc, hcl⟩
      · rcases hm with hm | hm
        · exact ⟨Or.inl hm, hm ▸ h⟩
        · exact ⟨Or.inr (ih.mp hm).1, (ih.mp hm).2⟩
      · rcases hm with ⟨hc | hc, hcl⟩
        · exact Or.inl hc
        · exact Or.inr (ih.mpr ⟨hc, hcl⟩)

theorem mem_updated_iff (prev cur : List Document) (e : UpdatedEntry) :
    e ∈ (diffLists prev cur).updated ↔
      e.doc ∈ cur ∧ classify prev e.doc = .isUpdated e.previousDoc e.reason := by
  induction cur with
  | nil => simp [diffLists]
  | cons c rest ih =>
      simp only [diffLists]
      rcases h : classify prev c with _ | ⟨p, r⟩ | _ <;>
        simp only [List.mem_cons] <;>
        constructor <;> intro hm
      · exact ⟨Or.inr (ih.mp hm).1, (ih.mp hm).2⟩
      · rcases hm with ⟨hc | hc, hcl⟩
        · exact absurd (hc ▸ h) (by simp [hcl])
        · exact ih.mpr ⟨hc, hcl⟩
      · rcases hm with hm | hm
        · refine ⟨Or.inl (by rw [hm]), ?_⟩
          rw [hm] at *
          simpa using h
        · exact ⟨Or.inr (ih.mp hm).1, (ih.mp hm).2⟩
      · rcases hm with ⟨hc | hc, hcl⟩
        · left
          have : classify prev e.doc = .isUpdated p r := hc ▸ h
          rw [this] at hcl
          cases e
          simp_all
        · exact Or.inr (ih.mpr ⟨hc, hcl⟩)
      · exact ⟨Or.inr (ih.mp hm).1, (ih.mp hm).2⟩
      · rcases hm with ⟨hc | hc, hcl⟩
        · exact absurd (hc ▸ h) (by simp [hcl])
        · exact ih.mpr ⟨hc, hcl⟩

-- Lookup helper lemmas.

theorem lastByUrl_eq_none_iff (prev : List Document) (u : String) :
    lastByUrl prev u = none ↔ ∀ q ∈ prev, q.url ≠ u := by
  simp [lastByUrl, List.find?_eq_none]

theorem lastByUrl_spec (prev : List Document) (u : String)
    (h : ∃ q ∈ prev, q.url = u) :
    ∃ p, lastByUrl prev u = some p ∧ p ∈ prev ∧ p.url = u := by
  obtain ⟨q, hq, hqu⟩ := h
  have hs : (lastByUrl prev u).isSome := by
    simp only [lastByUrl, List.find?_isSome]
    exact ⟨q, by simpa using hq, by simp [hqu]⟩
  obtain ⟨p, hp⟩ := Option.isSome_iff_exists.mp hs
  refine ⟨p, hp, ?_, ?_⟩
  · have := List.mem_of_find?_eq_some hp
    simpa using this
  · have := List.find?_some hp
    simpa using this

theorem lastByTitle_spec (prev : List Document) (k : String)
    (h : ∃ q ∈ prev, titleKey q = some k) :
    ∃ p, lastByTitle prev k = some p ∧ p ∈ prev ∧ titleKey p = some k := by
  obtain ⟨q, hq, hqk⟩ := h
  have hs : (lastByTitle prev k).isSome := by
    simp only [lastByTitle, List.find?_isSome]
    exact ⟨q, by simpa using hq, by simp [hqk]⟩
  obtain ⟨p, hp⟩ := Option.isSome_iff_exists.mp hs
  refine ⟨p, hp, ?_, ?_⟩
  · have := List.mem_of_find?_eq_some hp
    simpa using this
  · have := List.find?_some hp
    simpa using this

theorem lastByTitle_eq_none_iff (prev : List Document) (k : String) :
    lastByTitle prev k = none ↔ ∀ q ∈ prev, titleKey q ≠ some k := by
  simp [lastByTitle, List.find?_eq_none]

/-- Claim C1: for a current document whose url equals some previous
document's url, diff yields an `updated` entry with reason
`hash_changed` (against the url-matched previous document) exactly when
both carry a (non-empty) hash and the hashes differ, and classifies the
document `unchanged` — never `updated`, never `new` — in every other
case. -/
theorem diff_url_match_hash (prev cur : List Document) (d : Document)
    (hd : d ∈ cur) (hmatch : ∃ q ∈ prev, q.url = d.url) :
    ∃ p, lastByUrl prev d.url = some p ∧ p ∈ prev ∧ p.url = d.url ∧
      ((hashTruthy d = true ∧ hashTruthy p = true ∧ d.hash ≠ p.hash) →
        (⟨d, p, .hash_changed⟩ : UpdatedEntry) ∈ (diffLists prev cur).updated ∧
        d ∉ (diffLists prev cur).unchanged ∧
        d ∉ (diffLists prev cur).new) ∧
      (¬ (hashTruthy d = true ∧ hashTruthy p = true ∧ d.hash ≠ p.hash) →
        d ∈ (diffLists prev cur).unchanged ∧
        (∀ e ∈ (diffLists prev cur).updated, e.doc ≠ d) ∧
        d ∉ (diffLists prev cur).new) := by
  obtain ⟨p, hp, hpmem, hpurl⟩ := lastByUrl_spec prev d.url hmatch
  refine ⟨p, hp, hpmem, hpurl, ?_, ?_⟩
  · intro hc
    have hcl : classify prev d = .isUpdated p .hash_changed := by
      simp only [classify, hp]
      rw [if_pos]
      simp only [Bool.and_eq_true, bne_iff_ne]
      exact ⟨⟨hc.1, hc.2.1⟩, hc.2.2⟩
    refine ⟨?_, ?_, ?_⟩
    · exact (mem_updated_iff prev cur ⟨d, p, .hash_changed⟩).mpr ⟨hd, hcl⟩
    · intro hmem
      have := (mem_unchanged_iff prev cur d).mp hmem
      rw [hcl] at this
      exact absurd this.2 (by simp)
    · intro hmem
      have := (mem_new_iff prev cur d).mp hmem
      rw [hcl] at this
      exact absurd this.2 (by simp)
  · intro hc
    have hcl : classify prev d = .isUnchanged := by
      simp only [classify, hp]
      rw [if_neg]
      intro hb
      simp only [Bool.and_eq_true, bne_iff_ne] at hb
      exact hc ⟨hb.1.1, hb.1.2, hb.2⟩
    refine ⟨?_, ?_, ?_⟩
    · exact (mem_unchanged_iff prev cur d).mpr ⟨hd, hcl⟩
    · intro e he hed
      have := (mem_updated_iff prev cur e).mp he
      rw [hed, hcl] at this
      exact absurd this.2 (by simp)
    · intro hmem
      have := (mem_new_iff prev cur d).mp hmem
      rw [hcl] at this
      exact absurd this.2 (by simp)

/-- Witness for C1 at a concrete input: previous and current documents
sharing a url with differing non-empty hashes produce a `hash_changed`
updated entry. -/
theorem diff_url_match_hash_witness :
    (⟨⟨some "Doc 1", "u1", none, some "def", none, none⟩,
      ⟨some "Doc 1", "u1", none, some "abc", none, none⟩,
      .hash_changed⟩ : UpdatedEntry) ∈
      (diffLists [⟨some "Doc 1", "u1", none, some "abc", none, none⟩]
        [⟨some "Doc 1", "u1", none, some "def", none, none⟩]).updated := by
  have h := diff_url_match_hash
    [⟨some "Doc 1", "u1", none, some "abc", none, none⟩]
    [⟨some "Doc 1", "u1", none, some "def", none, none⟩]
    ⟨some "Doc 1", "u1", none, some "def", none, none⟩
    (by simp)
    ⟨⟨some "Doc 1", "u1", none, some "abc", none, none⟩, by simp, rfl⟩
  obtain ⟨p, hp, _, _, hpos, _⟩ := h
  have hpval : p = ⟨some "Doc 1", "u1", none, some "abc", none, none⟩ := by
    have : lastByUrl [(⟨some "Doc 1", "u1", none, some "abc", none, none⟩ : Document)] "u1"
        = some ⟨some "Doc 1", "u1", none, some "abc", none, none⟩ := by decide
    rw [this] at hp
    exact (Option.some_inj.mp hp).symm
  subst hpval
  exact (hpos (by decide)).1

/-- Claim C2: for a current document with no previous url match, a
case-insensitive title match yields an `updated` entry with reason
`url_changed` against the title-matched previous document (whose url
necessarily differs), even without hashes; with no title match the
document is `new`; and the url check takes strict precedence over the
title check (a url-matched document is never classified
`url_changed`). -/
theorem diff_title_match (prev cur : List Document) (d : Document)
    (hd : d ∈ cur) :
    ((∀ q ∈ prev, q.url ≠ d.url) →
      (∀ k, titleKey d = some k → (∃ q ∈ prev, titleKey q = some k) →
        ∃ p, lastByTitle prev k = some p ∧ p ∈ prev ∧ titleKey p = some k ∧
          p.url ≠ d.url ∧
          (⟨d, p, .url_changed⟩ : UpdatedEntry) ∈ (diffLists prev cur).updated ∧
          d ∉ (diffLists prev cur).new ∧
          d ∉ (diffLists prev cur).unchanged) ∧
      ((∀ k, titleKey d = some k → ∀ q ∈ prev, titleKey q ≠ some k) →
        d ∈ (diffLists prev cur).new ∧
        (∀ e ∈ (diffLists prev cur).updated, e.doc ≠ d) ∧
        d ∉ (diffLists prev cur).unchanged)) ∧
    ((∃ q ∈ prev, q.url = d.url) →
      ∀ e ∈ (diffLists prev cur).updated, e.doc = d → e.reason = .hash_changed) := by
  constructor
  · intro hnourl
    have hurl : lastByUrl prev d.url = none :=
      (lastByUrl_eq_none_iff prev d.url).mpr hnourl
    constructor
    · intro k hk hex
      obtain ⟨p, hp, hpmem, hpk⟩ := lastByTitle_spec prev k hex
      have hpurl : p.url ≠ d.url := hnourl p hpmem
      have hcl : classify prev d = .isUpdated p .url_changed := by
        simp only [classify, hurl, hk, hp]
        rw [if_pos hpurl]
      refine ⟨p, hp, hpmem, hpk, hpurl, ?_, ?_, ?_⟩
      · exact (mem_updated_iff prev cur ⟨d, p, .url_changed⟩).mpr ⟨hd, hcl⟩
      · intro hmem
        have := (mem_new_iff prev cur d).mp hmem
        rw [hcl] at this
        exact absurd this.2 (by simp)
      · intro hmem
        have := (mem_unchanged_iff prev cur d).mp hmem
        rw [hcl] at this
        exact absurd this.2 (by simp)
    · intro hnotitle
      have hcl : classify prev d = .isNew := by
        simp only [classify, hurl]
        cases hk : titleKey d with
        | none => rfl
        | some k =>
            have hnone : lastByTitle prev k = none :=
              (lastByTitle_eq_none_iff prev k).mpr (hnotitle k hk)
            simp [hnone]
      refine ⟨?_, ?_, ?_⟩
      · exact (mem_new_iff prev cur d).mpr ⟨hd, hcl⟩
      · intro e he hed
        have := (mem_updated_iff prev cur e).mp he
        rw [hed, hcl] at this
        exact absurd this.2 (by simp)
      · intro hmem
        have := (mem_unchanged_iff prev cur d).mp hmem
        rw [hcl] at this
        exact absurd this.2 (by simp)
  · intro hmatch e he hed
    obtain ⟨p, hp, _, _⟩ := lastByUrl_spec prev d.url hmatch
    have := (mem_updated_iff prev cur e).mp he
    rw [hed] at this
    have hcl := this.2
    simp only [classify, hp] at hcl
    by_cases hb : (hashTruthy d && hashTruthy p && d.hash != p.hash) = true
    · rw [if_pos hb] at hcl
      cases e
      simp_all
    · rw [if_neg hb] at hcl
      exact absurd hcl (by simp)

/-- Witness for C2 at a concrete input: previous `[{title: Important,
url: v1}]` and current `[{title: Important, url: v2}]` produce an
`updated` entry with reason `url_changed`. -/
theorem diff_title_match_witness :
    (⟨⟨some "Important", "v2", none, none, none, none⟩,
      ⟨some "Important", "v1", none, none, none, none⟩,
      .url_changed⟩ : UpdatedEntry) ∈
      (diffLists [⟨some "Important", "v1", none, none, none, none⟩]
        [⟨some "Important", "v2", none, none, none, none⟩]).updated := by
  have h := diff_title_match
    [⟨some "Important", "v1", none, none, none, none⟩]
    [⟨some "Important", "v2", none, none, none, none⟩]
    ⟨some "Important", "v2", none, none, none, none⟩
    (by simp)
  have ha := (h.1 (by decide)).1 "important" (by decide)
    ⟨⟨some "Important", "v1", none, none, none, none⟩, by simp, by decide⟩
  obtain ⟨p, hp, _, _, _, hmem, _, _⟩ := ha
  have hpval : p = ⟨some "Important", "v1", none, none, none, none⟩ := by
    have : lastByTitle [(⟨some "Important", "v1", none, none, none, none⟩ : Document)]
        "important" = some ⟨some "Important", "v1", none, none, none, none⟩ := by decide
    rw [this] at hp
    exact (Option.some_inj.mp hp).symm
  subst hpval
  exact hmem

/-- Claim C10: diff partitions the current list — the bucket sizes sum
to the current length, per-document multiplicities are preserved, and
every current document lands in exactly one of the three buckets. -/
theorem diff_partition (prev cur : List Document) :
    ((diffLists prev cur).new.length + (diffLists prev cur).updated.length +
        (diffLists prev cur).unchanged.length = cur.length) ∧
    (∀ d : Document,
      (diffLists prev cur).new.count d +
        (diffLists prev cur).updated.countP (fun e => e.doc == d) +
        (diffLists prev cur).unchanged.count d = cur.count d) ∧
    (∀ d ∈ cur,
      (d ∈ (diffLists prev cur).new ∧
        (∀ e ∈ (diffLists prev cur).updated, e.doc ≠ d) ∧
        d ∉ (diffLists prev cur).unchanged) ∨
      (d ∉ (diffLists prev cur).new ∧
        (∃ e ∈ (diffLists prev cur).updated, e.doc = d) ∧
        d ∉ (diffLists prev cur).unchanged) ∨
      (d ∉ (diffLists prev cur).new ∧
        (∀ e ∈ (diffLists prev cur).updated, e.doc ≠ d) ∧
        d ∈ (diffLists prev cur).unchanged)) := by
  refine ⟨?_, ?_, ?_⟩
  · induction cur with
    | nil => simp [diffLists]
    | cons c rest ih =>
        simp only [diffLists]
        rcases h : classify prev c with _ | ⟨p, r⟩ | _ <;>
          simp only [List.length_cons] <;> omega
  · intro d
    induction cur with
    | nil => simp [diffLists]
    | cons c rest ih =>
        simp only [diffLists]
        rcases h : classify prev c with _ | ⟨p, r⟩ | _ <;>
          simp only [List.count_cons, List.countP_cons] <;>
          omega
  · intro d hd
    rcases hcl : classify prev d with _ | ⟨p, r⟩ | _
    · refine Or.inl ⟨(mem_new_iff prev cur d).mpr ⟨hd, hcl⟩, ?_, ?_⟩
      · intro e he hed
        have := (mem_updated_iff prev cur e).mp he
        rw [hed, hcl] at this
        exact absurd this.2 (by simp)
      · intro hmem
        have := (mem_unchanged_iff prev cur d).mp hmem
        rw [hcl] at this
        exact absurd this.2 (by simp)
    · refine Or.inr (Or.inl ⟨?_, ⟨⟨d, p, r⟩, ?_, rfl⟩, ?_⟩)
      · intro hmem
        have := (mem_new_iff prev cur d).mp hmem
        rw [hcl] at this
        exact absurd this.2 (by simp)
      · exact (mem_updated_iff prev cur ⟨d, p, r⟩).mpr ⟨hd, hcl⟩
      · intro hmem
        have := (mem_unchanged_iff prev cur d).mp hmem
        rw [hcl] at this
        exact absurd this.2 (by simp)
    · refine Or.inr (Or.inr ⟨?_, ?_, (mem_unchanged_iff prev cur d).mpr ⟨hd, hcl⟩⟩)
      · intro hmem
        have := (mem_new_iff prev cur d).mp hmem
        rw [hcl] at this
        exact absurd this.2 (by simp)
      · intro e he hed
        have := (mem_updated_iff prev cur e).mp he
        rw [hed, hcl] at this
        exact absurd this.2 (by simp)

/-- Claim C3 (counterexample): on a state with no entry for the site id,
`StateManager.diff` does not leave the state aggregate unchanged — it
lazily creates an empty per-site entry. -/
theorem diff_mutates_missing_site :
    (StateManager.diff ⟨1, none, []⟩ "a" []).1 ≠ (⟨1, none, []⟩ : AppState) := by
  decide

/-- Claim C3 (amended): `StateManager.diff` leaves the state aggregate
unchanged whenever the site already has an entry, and its result is the
pure list diff of the stored and current document lists; when the site
has no entry, the only state change is the lazy creation of an empty
entry for that id, and the result is the diff against the empty
list. -/
theorem diff_frame (st : AppState) (siteId : String) (cur : List Document) :
    (∀ s, lookupSite st siteId = some s →
      (StateManager.diff st siteId cur).1 = st ∧
      (StateManager.diff st siteId cur).2 = diffLists s.documents cur) ∧
    (lookupSite st siteId = none →
      (StateManager.diff st siteId cur).1 =
        { st with sites := st.sites ++ [(siteId, freshSiteState)] } ∧
      (StateManager.diff st siteId cur).2 = diffLists [] cur) := by
  constructor
  · intro s hs
    simp only [lookupSite, Option.map_eq_some'] at hs
    obtain ⟨kv, hkv, hkv2⟩ := hs
    simp [StateManager.diff, StateManager.getSiteState, hkv, hkv2]
  · intro hs
    simp only [lookupSite, Option.map_eq_none'] at hs
    simp [StateManager.diff, StateManager.getSiteState, hs, freshSiteState]

/-- Witness for the amended C3 at a concrete input: with an existing
(empty) entry for site id a, diff leaves the state untouched. -/
theorem diff_frame_witness :
    (StateManager.diff ⟨1, none, [("a", freshSiteState)]⟩ "a" []).1 =
      (⟨1, none, [("a", freshSiteState)]⟩ : AppState) := by
  exact ((diff_frame ⟨1, none, [("a", freshSiteState)]⟩ "a" []).1
    freshSiteState (by decide)).1

-- Error fingerprinting and deduplication (runner/index.js and
-- StateManager.setLastError).

/-- The fields of a caught JS error that feed the failure path:
`error.name`, `error.message` and, for navigation errors, the failing
step (`error.step`). -/
structure JsError where
  name : String
  message : String
  step : Option StepInfo
deriving DecidableEq

/-- JS `ToInt32` conversion: wrap an integer into the signed 32-bit
range. -/
def toInt32 (n : Int) : Int :=
  (n + 2 ^ 31) % 2 ^ 32 - 2 ^ 31

/-- One iteration of the fingerprint hash loop:
`hash = ((hash << 5) - hash) + charCode; hash = hash & hash`. -/
def jsHashStep (h : Int) (c : Char) : Int :=
  toInt32 (toInt32 (h * 32) - h + c.toNat)

/-- The full hash loop over the characters of the joined parts
string. -/
def jsHash (s : String) : Int :=
  s.data.foldl jsHashStep 0

/-- `Array.prototype.join('|')`. -/
def joinBar : List String → String
  | [] => ""
  | [s] => s
  | s :: rest => s ++ "|" ++ joinBar rest

/-- `Math.abs(hash).toString(16)`. -/
def toHex (n : Nat) : String :=
  String.mk (Nat.toDigits 16 n)

/-- `createErrorFingerprint(error, stepInfo)`: join error name (default
Error), message, step action and step selector with a bar, hash the
result and render it in hexadecimal. -/
def createErrorFingerprint (error : JsError) (stepInfo : Option StepInfo) : String :=
  let parts : List String := [
    (if error.name = "" then "Error" else error.name),
    error.message,
    (match stepInfo with | some s => s.action | none => ""),
    (match stepInfo with | some s => s.selector.getD "" | none => "")]
  toHex (jsHash (joinBar parts)).natAbs

/-- The `errorInfo` argument of `StateManager.setLastError`. -/
structure ErrorInfo where
  fingerprint : String
  message : String
  step : Option StepInfo
deriving DecidableEq

/-- The `consecutiveCount` computation of `setLastError`:
incremented (with a `|| 1` floor) when the stored fingerprint matches,
reset to 1 otherwise. -/
def nextCount (last : Option ErrorRecord) (fp : String) : Nat :=
  match last with
  | some e =>
      if e.fingerprint = fp then
        (if e.consecutiveCount = 0 then 1 else e.consecutiveCount) + 1
      else 1
  | none => 1

/-- In-place update of a site's entry (the JS code mutates the object
returned by `getSiteState` by reference). -/
def replaceSite (st : AppState) (siteId : String) (s' : SiteState) : AppState :=
  { st with sites := st.sites.map (fun kv => if kv.1 = siteId then (kv.1, s') else kv) }

/-- `StateManager.setLastError`: store the fingerprint, message, step
and timestamp, with the duplicate-aware consecutive count. -/
def StateManager.setLastError (st : AppState) (siteId : String)
    (info : ErrorInfo) (now : String) : AppState :=
  let p := StateManager.getSiteState st siteId
  replaceSite p.1 siteId
    { p.2 with
      lastError := some ⟨info.fingerprint, info.message, info.step, now,
        nextCount p.2.lastError info.fingerprint⟩ }

/-- `StateManager.getLastError` (with the lazy-creation side effect of
`getSiteState` made explicit). -/
def StateManager.getLastError (st : AppState) (siteId : String) :
    AppState × Option ErrorRecord :=
  let p := StateManager.getSiteState st siteId
  (p.1, p.2.lastError)

/-- The failure path of `processSite` (runner/index.js): fingerprint
the error, detect a duplicate against the stored record, persist the
error, and report whether an outward notification is sent
(`shouldNotify && !isDuplicate`). -/
def handleSiteFailure (st : AppState) (siteId : String) (error : JsError)
    (shouldNotify : Bool) (now : String) : AppState × Bool :=
  let fp := createErrorFingerprint error error.step
  let p := StateManager.getLastError st siteId
  let isDuplicate : Bool := match p.2 with
    | some e => e.fingerprint == fp
    | none => false
  (StateManager.setLastError p.1 siteId ⟨fp, error.message, error.step⟩ now,
    shouldNotify && !isDuplicate)

-- Association-list lemmas for the site map.

theorem find?_append_of_none {α : Type} (l₁ l₂ : List α) (p : α → Bool)
    (h : l₁.find? p = none) : (l₁ ++ l₂).find? p = l₂.find? p := by
  induction l₁ with
  | nil => simp
  | cons a t ih =>
      have ha : ¬ p a := by
        have := (List.find?_eq_none.mp h) a (by simp)
        simpa using this
      have ht : t.find? p = none := by
        rw [List.find?_cons_of_neg _ ha] at h
        exact h
      simpa [List.find?_cons_of_neg _ ha] using ih ht

theorem lookupSite_getSiteState_fst (st : AppState) (siteId : String) :
    lookupSite (StateManager.getSiteState st siteId).1 siteId =
      some (StateManager.getSiteState st siteId).2 := by
  unfold StateManager.getSiteState
  cases h : st.sites.find? (fun kv => kv.1 == siteId) with
  | some kv => simp [lookupSite, h]
  | none =>
      simp only [lookupSite]
      rw [find?_append_of_none _ _ _ h]
      simp

theorem find?_map_replace (l : List (String × SiteState)) (siteId : String)
    (s' : SiteState) :
    (l.map (fun kv => if kv.1 = siteId then (kv.1, s') else kv)).find?
        (fun kv => kv.1 == siteId) =
      (l.find? (fun kv => kv.1 == siteId)).map (fun kv => (kv.1, s')) := by
  induction l with
  | nil => simp
  | cons kv t ih =>
      by_cases hk : kv.1 = siteId
      · simp [hk, List.find?_cons_of_pos]
      · have hk' : (kv.1 == siteId) = false := by simp [hk]
        simp only [List.map_cons, if_neg hk]
        rw [List.find?_cons_of_neg _ (by simp [hk]),
          List.find?_cons_of_neg _ (by simp [hk])]
        exact ih

theorem lookupSite_replaceSite (st : AppState) (siteId : String) (s' : SiteState) :
    lookupSite (replaceSite st siteId s') siteId =
      (lookupSite st siteId).map (fun _ => s') := by
  simp only [lookupSite, replaceSite, find?_map_replace]
  cases st.sites.find? (fun kv => kv.1 == siteId) <;> simp

theorem lookupSite_setLastError (st : AppState) (siteId : String)
    (info : ErrorInfo) (now : String) :
    lookupSite (StateManager.setLastError st siteId info now) siteId =
      some { (StateManager.getSiteState st siteId).2 with
        lastError := some ⟨info.fingerprint, info.message, info.step, now,
          nextCount (StateManager.getSiteState st siteId).2.lastError
            info.fingerprint⟩ } := by
  unfold StateManager.setLastError
  rw [lookupSite_replaceSite, lookupSite_getSiteState_fst]
  rfl

theorem getSiteState_of_lookup_some (st : AppState) (siteId : String)
    (s : SiteState) (h : lookupSite st siteId = some s) :
    StateManager.getSiteState st siteId = (st, s) := by
  simp only [lookupSite, Option.map_eq_some'] at h
  obtain ⟨kv, hkv, hkv2⟩ := h
  simp [StateManager.getSiteState, hkv, hkv2]

theorem getLastError_snd (st : AppState) (siteId : String) :
    (StateManager.getLastError st siteId).2 =
      match lookupSite st siteId with
      | some s => s.lastError
      | none => none := by
  unfold StateManager.getLastError StateManager.getSiteState
  cases h : st.sites.find? (fun kv => kv.1 == siteId) with
  | some kv => simp [lookupSite, h]
  | none => simp [lookupSite, h, freshSiteState]

theorem handleSiteFailure_spec (st : AppState) (siteId : String)
    (error : JsError) (shouldNotify : Bool) (now : String) :
    (handleSiteFailure st siteId error shouldNotify now).2 =
      (shouldNotify && !(match (StateManager.getSiteState st siteId).2.lastError with
        | some e => e.fingerprint == createErrorFingerprint error error.step
        | none => false)) ∧
    (StateManager.getLastError
        (handleSiteFailure st siteId error shouldNotify now).1 siteId).2 =
      some ⟨createErrorFingerprint error error.step, error.message, error.step, now,
        nextCount (StateManager.getSiteState st siteId).2.lastError
          (createErrorFingerprint error error.step)⟩ := by
  have hge : StateManager.getLastError st siteId =
      ((StateManager.getSiteState st siteId).1,
        (StateManager.getSiteState st siteId).2.lastError) := rfl
  have hl1 : lookupSite (StateManager.getSiteState st siteId).1 siteId =
      some (StateManager.getSiteState st siteId).2 :=
    lookupSite_getSiteState_fst st siteId
  have hgss1 : StateManager.getSiteState (StateManager.getSiteState st siteId).1 siteId =
      ((StateManager.getSiteState st siteId).1, (StateManager.getSiteState st siteId).2) :=
    getSiteState_of_lookup_some _ _ _ hl1
  constructor
  · rfl
  · show (StateManager.getLastError
        (StateManager.setLastError (StateManager.getSiteState st siteId).1 siteId
          ⟨createErrorFingerprint error error.step, error.message, error.step⟩ now) siteId).2 = _
    rw [getLastError_snd, lookupSite_setLastError]
    rw [hgss1]

/-- Claim C6: a failure whose fingerprint (from error kind, message,
step action and selector) equals the stored one is suppressed and the
stored consecutive count is incremented; a differing fingerprint resets
the count to 1 and the failure is notified; starting from no stored
error, two identical consecutive failures notify the first, suppress
the second, and leave a stored count of 2. -/
theorem error_dedup (st : AppState) (siteId : String) (error : JsError)
    (now now2 : String) :
    (∀ e, (StateManager.getLastError st siteId).2 = some e →
      (e.fingerprint = createErrorFingerprint error error.step →
        1 ≤ e.consecutiveCount →
        (handleSiteFailure st siteId error true now).2 = false ∧
        (StateManager.getLastError
            (handleSiteFailure st siteId error true now).1 siteId).2 =
          some ⟨createErrorFingerprint error error.step, error.message,
            error.step, now, e.consecutiveCount + 1⟩) ∧
      (e.fingerprint ≠ createErrorFingerprint error error.step →
        (handleSiteFailure st siteId error true now).2 = true ∧
        (StateManager.getLastError
            (handleSiteFailure st siteId error true now).1 siteId).2 =
          some ⟨createErrorFingerprint error error.step, error.message,
            error.step, now, 1⟩)) ∧
    ((StateManager.getLastError st siteId).2 = none →
      (handleSiteFailure st siteId error true now).2 = true ∧
      (StateManager.getLastError
          (handleSiteFailure st siteId error true now).1 siteId).2 =
        some ⟨createErrorFingerprint error error.step, error.message,
          error.step, now, 1⟩ ∧
      (handleSiteFailure
          (handleSiteFailure st siteId error true now).1 siteId error true now2).2 =
        false ∧
      (StateManager.getLastError
          (handleSiteFailure
            (handleSiteFailure st siteId error true now).1 siteId error true now2).1
          siteId).2 =
        some ⟨createErrorFingerprint error error.step, error.message,
          error.step, now2, 2⟩) := by
  have hle : (StateManager.getLastError st siteId).2 =
      (StateManager.getSiteState st siteId).2.lastError := rfl
  obtain ⟨hnot, hstore⟩ := handleSiteFailure_spec st siteId error true now
  constructor
  · intro e he
    rw [hle] at he
    constructor
    · intro hfp hc
      constructor
      · rw [hnot, he]
        simp [hfp]
      · rw [hstore, he]
        simp only [nextCount, if_pos hfp]
        have : (if e.consecutiveCount = 0 then 1 else e.consecutiveCount) =
            e.consecutiveCount := by
          rw [if_neg (by omega)]
        rw [this]
    · intro hfp
      constructor
      · rw [hnot, he]
        simp [hfp]
      · rw [hstore, he]
        simp [nextCount, hfp]
  · intro he
    rw [hle] at he
    have h1 : (handleSiteFailure st siteId error true now).2 = true := by
      rw [hnot, he]
      rfl
    have h2 : (StateManager.getLastError
        (handleSiteFailure st siteId error true now).1 siteId).2 =
        some ⟨createErrorFingerprint error error.step, error.message,
          error.step, now, 1⟩ := by
      rw [hstore, he]
      simp [nextCount]
    obtain ⟨hnot2, hstore2⟩ :=
      handleSiteFailure_spec (handleSiteFailure st siteId error true now).1
        siteId error true now2
    have hle2 : (StateManager.getLastError
        (handleSiteFailure st siteId error true now).1 siteId).2 =
        (StateManager.getSiteState
          (handleSiteFailure st siteId error true now).1 siteId).2.lastError := rfl
    rw [hle2] at h2
    refine ⟨h1, by rw [hstore, he]; simp [nextCount], ?_, ?_⟩
    · rw [hnot2, h2]
      simp
    · rw [hstore2, h2]
      simp [nextCount]

/-- Witness for C6 at a concrete input: the same navigation error twice
in a row on a fresh site — first notified with count 1, second
suppressed with count 2. -/
theorem error_dedup_witness :
    (handleSiteFailure (⟨1, none, []⟩ : AppState) "a"
        ⟨"NavigationError", "boom", some ⟨"click", some "#btn"⟩⟩ true "t1").2 = true ∧
    (handleSiteFailure
        (handleSiteFailure (⟨1, none, []⟩ : AppState) "a"
          ⟨"NavigationError", "boom", some ⟨"click", some "#btn"⟩⟩ true "t1").1 "a"
        ⟨"NavigationError", "boom", some ⟨"click", some "#btn"⟩⟩ true "t2").2 = false := by
  have h := (error_dedup ⟨1, none, []⟩ "a"
    ⟨"NavigationError", "boom", some ⟨"click", some "#btn"⟩⟩ "t1" "t2").2 (by decide)
  exact ⟨h.1, h.2.2.1⟩

-- File validation (runner/Downloader.js).

/-- The magic-number table, in source order; `docx`/`xlsx` share the
ZIP signature and `xls` shares the legacy DOC one. -/
def MAGIC_NUMBERS : List (String × List Nat) :=
  [("pdf", [0x25, 0x50, 0x44, 0x46]),
   ("zip", [0x50, 0x4B, 0x03, 0x04]),
   ("docx", [0x50, 0x4B, 0x03, 0x04]),
   ("xlsx", [0x50, 0x4B, 0x03, 0x04]),
   ("doc", [0xD0, 0xCF, 0x11, 0xE0]),
   ("xls", [0xD0, 0xCF, 0x11, 0xE0]),
   ("png", [0x89, 0x50, 0x4E, 0x47]),
   ("jpg", [0xFF, 0xD8, 0xFF]),
   ("gif", [0x47, 0x49, 0x46, 0x38])]

/-- `MAGIC_NUMBERS[expectedType]`. -/
def lookupMagic (t : String) : Option (List Nat) :=
  (MAGIC_NUMBERS.find? (fun kv => kv.1 == t)).map (fun kv => kv.2)

/-- The HTML/XML markers that flag a disguised error page. -/
def HTML_SIGNATURES : List String :=
  ["<!DOCTYPE", "<!doctype", "<html", "<HTML", "<?xml"]

/-- The byte sequence of an ASCII marker string. -/
def strBytes (s : String) : List Nat :=
  s.data.map Char.toNat

/-- `magicInfo.bytes.every((byte, i) => fileHeader[i] === byte)`: the
signature is a leading run of the buffer (an out-of-range index never
equals a byte). -/
def startsWithBytes : List Nat → List Nat → Bool
  | [], _ => true
  | _ :: _, [] => false
  | s :: st, b :: bt => s == b && startsWithBytes st bt

/-- `header.includes(sig)` on byte lists: the marker occurs contiguously
somewhere in the header. -/
def hasSubSeq (sub : List Nat) : List Nat → Bool
  | [] => sub.isEmpty
  | b :: t => startsWithBytes sub (b :: t) || hasSubSeq sub t

/-- Outcome of `validateFile` (the `{valid, reason?, hash?, size?}`
object). -/
inductive ValidationResult where
  | valid (hash : String) (size : Nat)
  | invalid (reason : String)
deriving DecidableEq

/-- `Downloader.detectFileType`: first entry of the table whose
signature leads the buffer. -/
def Downloader.detectFileType (buffer : List Nat) : Option String :=
  (MAGIC_NUMBERS.find? (fun kv => startsWithBytes kv.2 buffer)).map (fun kv => kv.1)

/-- `Downloader.validateFile` on the raw bytes: reject empty content,
then reject any HTML/XML marker in the first 100 bytes, then check the
declared type's magic number, accepting a mismatch when some other
known signature matches; on success return the SHA-256 hash (the hash
function is an explicit parameter) and the size. -/
def Downloader.validateFile (sha256 : List Nat → String) (buffer : List Nat)
    (expectedType : String) : ValidationResult :=
  if buffer.length = 0 then .invalid "empty_file"
  else if HTML_SIGNATURES.any (fun sig => hasSubSeq (strBytes sig) (buffer.take 100)) then
    .invalid "html_error_page"
  else
    match lookupMagic expectedType with
    | some sig =>
        if startsWithBytes sig buffer then .valid (sha256 buffer) buffer.length
        else
          match Downloader.detectFileType buffer with
          | some _ => .valid (sha256 buffer) buffer.length
          | none => .invalid ("invalid_magic_number_for_" ++ expectedType)
    | none => .valid (sha256 buffer) buffer.length

theorem validateFile_magic_branch (sha256 : List Nat → String)
    (buffer : List Nat) (t : String) (sig : List Nat)
    (hne : buffer.length ≠ 0)
    (hnoany : ¬ (HTML_SIGNATURES.any
      (fun s => hasSubSeq (strBytes s) (buffer.take 100)) = true))
    (hmagic : lookupMagic t = some sig) :
    Downloader.validateFile sha256 buffer t =
      (if startsWithBytes sig buffer then .valid (sha256 buffer) buffer.length
       else
         match Downloader.detectFileType buffer with
         | some _ => .valid (sha256 buffer) buffer.length
         | none => .invalid ("invalid_magic_number_for_" ++ t)) := by
  unfold Downloader.validateFile
  rw [if_neg hne, if_neg hnoany, hmagic]

/-- Claim C4: an empty buffer is rejected as `empty_file`; a non-empty
buffer with an HTML/XML marker in its first 100 bytes is rejected as
`html_error_page` whatever the declared type; a buffer leading with the
PDF magic `25 50 44 46` and free of markers validates as pdf. -/
theorem validateFile_rejects (sha256 : List Nat → String) (buffer : List Nat)
    (expectedType : String) :
    (buffer.length = 0 →
      Downloader.validateFile sha256 buffer expectedType = .invalid "empty_file") ∧
    (buffer.length ≠ 0 →
      (∃ sig ∈ HTML_SIGNATURES, hasSubSeq (strBytes sig) (buffer.take 100) = true) →
      Downloader.validateFile sha256 buffer expectedType = .invalid "html_error_page") ∧
    (startsWithBytes [0x25, 0x50, 0x44, 0x46] buffer = true →
      (∀ sig ∈ HTML_SIGNATURES, hasSubSeq (strBytes sig) (buffer.take 100) = false) →
      Downloader.validateFile sha256 buffer "pdf" =
        .valid (sha256 buffer) buffer.length) := by
  refine ⟨?_, ?_, ?_⟩
  · intro h
    simp [Downloader.validateFile, h]
  · intro hne hsig
    rw [Downloader.validateFile, if_neg hne]
    rw [if_pos]
    exact List.any_eq_true.mpr (by simpa using hsig)
  · intro hpdf hnosig
    have hne : buffer.length ≠ 0 := by
      cases buffer with
      | nil => simp [startsWithBytes] at hpdf
      | cons b t => simp
    have hnoany : ¬ (HTML_SIGNATURES.any
        (fun s => hasSubSeq (strBytes s) (buffer.take 100)) = true) := by
      intro hany
      obtain ⟨sig, hs, hh⟩ := List.any_eq_true.mp hany
      exact absurd hh (by simp [hnosig sig hs])
    rw [validateFile_magic_branch sha256 buffer "pdf" [0x25, 0x50, 0x44, 0x46]
      hne hnoany (by decide)]
    rw [if_pos hpdf]

/-- Witness for C4 at a concrete input: the four PDF magic bytes alone
validate as pdf, and the byte text of an HTML error page is rejected
whatever the declared type. -/
theorem validateFile_rejects_witness :
    Downloader.validateFile (fun _ => "h") [0x25, 0x50, 0x44, 0x46] "pdf" =
      .valid "h" 4 ∧
    Downloader.validateFile (fun _ => "h") (strBytes "<!DOCTYPE html>") "pdf" =
      .invalid "html_error_page" := by
  constructor
  · exact (validateFile_rejects (fun _ => "h") [0x25, 0x50, 0x44, 0x46] "pdf").2.2
      (by decide) (by decide)
  · exact (validateFile_rejects (fun _ => "h") (strBytes "<!DOCTYPE html>") "pdf").2.1
      (by decide) ⟨"<!DOCTYPE", by decide, by decide⟩

/-- Claim C5: for a non-empty, non-HTML buffer whose leading bytes miss
the declared type's signature, `validateFile` accepts (with the SHA-256
hash) exactly when some known signature matches the leading bytes, and
otherwise rejects with `invalid_magic_number_for_` followed by the
declared type. -/
theorem validateFile_magic_mismatch (sha256 : List Nat → String)
    (buffer : List Nat) (t : String) (sig : List Nat)
    (hne : buffer.length ≠ 0)
    (hnohtml : ∀ s ∈ HTML_SIGNATURES, hasSubSeq (strBytes s) (buffer.take 100) = false)
    (hmagic : lookupMagic t = some sig)
    (hmiss : startsWithBytes sig buffer = false) :
    (Downloader.detectFileType buffer = none ↔
      ∀ kv ∈ MAGIC_NUMBERS, startsWithBytes kv.2 buffer = false) ∧
    ((∃ kv ∈ MAGIC_NUMBERS, startsWithBytes kv.2 buffer = true) →
      Downloader.validateFile sha256 buffer t = .valid (sha256 buffer) buffer.length) ∧
    ((∀ kv ∈ MAGIC_NUMBERS, startsWithBytes kv.2 buffer = false) →
      Downloader.validateFile sha256 buffer t =
        .invalid ("invalid_magic_number_for_" ++ t)) := by
  have hnoany : ¬ (HTML_SIGNATURES.any
      (fun s => hasSubSeq (strBytes s) (buffer.take 100)) = true) := by
    intro hany
    obtain ⟨s, hs, hh⟩ := List.any_eq_true.mp hany
    exact absurd hh (by simp [hnohtml s hs])
  have hdet : Downloader.detectFileType buffer = none ↔
      ∀ kv ∈ MAGIC_NUMBERS, startsWithBytes kv.2 buffer = false := by
    unfold Downloader.detectFileType
    rw [Option.map_eq_none', List.find?_eq_none]
    constructor
    · intro h kv hkv
      have := h kv hkv
      simpa using this
    · intro h kv hkv
      simp [h kv hkv]
  refine ⟨hdet, ?_, ?_⟩
  · intro hex
    have hdet2 : Downloader.detectFileType buffer ≠ none := by
      rw [Ne, hdet]
      intro hall
      obtain ⟨kv, hkv, hsw⟩ := hex
      rw [hall kv hkv] at hsw
      exact Bool.false_ne_true hsw
    rw [validateFile_magic_branch sha256 buffer t sig hne hnoany hmagic,
      if_neg (by simp [hmiss])]
    cases hd : Downloader.detectFileType buffer with
    | none => exact absurd hd hdet2
    | some ty => rfl
  · intro hall
    rw [validateFile_magic_branch sha256 buffer t sig hne hnoany hmagic,
      if_neg (by simp [hmiss])]
    rw [hdet.mpr hall]

/-- Witness for C5 at concrete inputs: a PNG-magic buffer declared as
pdf is accepted; an unrecognizable buffer declared as pdf is rejected
with the typed reason. -/
theorem validateFile_magic_mismatch_witness :
    Downloader.validateFile (fun _ => "h") [0x89, 0x50, 0x4E, 0x47] "pdf" =
      .valid "h" 4 ∧
    Downloader.validateFile (fun _ => "h") [0x00, 0x01, 0x02, 0x03] "pdf" =
      .invalid "invalid_magic_number_for_pdf" := by
  constructor
  · exact (validateFile_magic_mismatch (fun _ => "h") [0x89, 0x50, 0x4E, 0x47] "pdf"
      [0x25, 0x50, 0x44, 0x46] (by decide) (by decide) (by decide) (by decide)).2.1
      ⟨("png", [0x89, 0x50, 0x4E, 0x47]), by decide, by decide⟩
  · exact (validateFile_magic_mismatch (fun _ => "h") [0x00, 0x01, 0x02, 0x03] "pdf"
      [0x25, 0x50, 0x44, 0x46] (by decide) (by decide) (by decide) (by decide)).2.2
      (by decide)

-- URL normalization and document ids (runner/Extractor.js).  The WHATWG
-- URL parser of the host platform is out of scope: a parsed URL is
-- modelled structurally (scheme, host, path, ordered query parameters),
-- with serialization made explicit.

/-- A parsed URL as relevant to `normalizeDocument`. -/
structure JsURL where
  scheme : String
  host : String
  path : String
  params : List (String × String)
deriving DecidableEq

/-- The cache-busting parameter names removed by `normalizeDocument`. -/
def CACHE_PARAMS : List String :=
  ["_", "v", "cache", "timestamp", "t", "rand"]

/-- `url.searchParams.delete(name)`: drop every pair with that name. -/
def deleteParam (ps : List (String × String)) (name : String) :
    List (String × String) :=
  ps.filter (fun kv => kv.1 != name)

/-- The `forEach(param => url.searchParams.delete(param))` loop over the
cache parameter names. -/
def normalizeUrl (u : JsURL) : JsURL :=
  { u with params := CACHE_PARAMS.foldl deleteParam u.params }

/-- `Array.prototype.join('&')`. -/
def joinAmp : List String → String
  | [] => ""
  | [s] => s
  | s :: rest => s ++ "&" ++ joinAmp rest

/-- `url.href`: re-serialize the structural URL. -/
def renderURL (u : JsURL) : String :=
  u.scheme ++ "://" ++ u.host ++ u.path ++
    (if u.params.isEmpty then ""
     else "?" ++ joinAmp (u.params.map (fun kv => kv.1 ++ "=" ++ kv.2)))

/-- The character class kept by `replace(/[^a-z0-9]/g, '')` (applied
after lower-casing). -/
def isAlphaNumLower (c : Char) : Bool :=
  ('a' ≤ c && c ≤ 'z') || ('0' ≤ c && c ≤ '9')

/-- `replace(/^https?:\/\//, '')`. -/
def stripScheme (s : String) : String :=
  if s.data.take 8 = "https://".data then String.mk (s.data.drop 8)
  else if s.data.take 7 = "http://".data then String.mk (s.data.drop 7)
  else s

/-- `Extractor.createDocId`: lower-case and strip the title and url to
alphanumerics, join with a double colon, truncate to 200
characters. -/
def Extractor.createDocId (title : Option String) (url : String) : String :=
  let titlePart := String.mk ((jsToLower (title.getD "")).data.filter isAlphaNumLower)
  let urlPart := String.mk ((stripScheme (jsToLower url)).data.filter isAlphaNumLower)
  String.mk ((titlePart ++ "::" ++ urlPart).data.take 200)

theorem foldl_deleteParam_eq_filter (names : List String)
    (ps : List (String × String)) :
    names.foldl deleteParam ps =
      ps.filter (fun kv => !(names.contains kv.1)) := by
  induction names generalizing ps with
  | nil => simp
  | cons n ns ih =>
      simp only [List.foldl_cons]
      rw [ih, deleteParam, List.filter_filter]
      apply List.filter_congr
      intro kv _
      by_cases he : kv.1 = n <;>
        simp [he, bne, beq_iff_eq, List.contains_cons, Bool.and_comm]

/-- Claim C7: normalizing a url is idempotent, and two structurally
parseable urls differing only in the cache parameters `_`, `v`,
`cache`, `timestamp`, `t`, `rand` normalize to the same url and induce
the same derived document id. -/
theorem normalizeUrl_idem_and_cache_free (u u1 u2 : JsURL) (title : Option String) :
    normalizeUrl (normalizeUrl u) = normalizeUrl u ∧
    (u1.scheme = u2.scheme → u1.host = u2.host → u1.path = u2.path →
      u1.params.filter (fun kv => !(CACHE_PARAMS.contains kv.1)) =
        u2.params.filter (fun kv => !(CACHE_PARAMS.contains kv.1)) →
      normalizeUrl u1 = normalizeUrl u2 ∧
      Extractor.createDocId title (renderURL (normalizeUrl u1)) =
        Extractor.createDocId title (renderURL (normalizeUrl u2))) := by
  constructor
  · have hp : CACHE_PARAMS.foldl deleteParam (CACHE_PARAMS.foldl deleteParam u.params) =
        CACHE_PARAMS.foldl deleteParam u.params := by
      rw [foldl_deleteParam_eq_filter CACHE_PARAMS (CACHE_PARAMS.foldl deleteParam u.params),
        foldl_deleteParam_eq_filter, List.filter_filter]
      exact List.filter_congr (fun kv _ => by
        cases h : CACHE_PARAMS.contains kv.1 <;> simp [h])
    unfold normalizeUrl
    simp [hp]
  · intro hs hh hp hq
    have h12 : normalizeUrl u1 = normalizeUrl u2 := by
      unfold normalizeUrl
      cases u1 with
      | mk s1 h1 p1 ps1 =>
          cases u2 with
          | mk s2 h2 p2 ps2 =>
              simp only [JsURL.mk.injEq]
              rw [foldl_deleteParam_eq_filter, foldl_deleteParam_eq_filter]
              exact ⟨hs, hh, hp, hq⟩
    exact ⟨h12, by rw [h12]⟩

/-- Witness for C7 at a concrete input: urls differing only in a `v`
cache parameter normalize identically, with identical derived ids. -/
theorem normalizeUrl_idem_and_cache_free_witness :
    normalizeUrl ⟨"https", "x.com", "/doc1.pdf", [("v", "1"), ("a", "2")]⟩ =
      normalizeUrl ⟨"https", "x.com", "/doc1.pdf", [("a", "2")]⟩ ∧
    Extractor.createDocId (some "Doc 1")
        (renderURL (normalizeUrl ⟨"https", "x.com", "/doc1.pdf", [("v", "1"), ("a", "2")]⟩)) =
      Extractor.createDocId (some "Doc 1")
        (renderURL (normalizeUrl ⟨"https", "x.com", "/doc1.pdf", [("a", "2")]⟩)) := by
  exact (normalizeUrl_idem_and_cache_free
    ⟨"https", "x.com", "/doc1.pdf", []⟩
    ⟨"https", "x.com", "/doc1.pdf", [("v", "1"), ("a", "2")]⟩
    ⟨"https", "x.com", "/doc1.pdf", [("a", "2")]⟩
    (some "Doc 1")).2 rfl rfl rfl (by decide)

-- Extraction filtering and normalization (runner/Extractor.js).

/-- A raw document as assembled by `extractDocument` from the field
rules, before normalization. -/
structure RawDoc where
  title : Option String
  url : Option String
  date : Option String
deriving DecidableEq

/-- JS truthiness of an optional string field. -/
def strTruthy : Option String → Bool
  | some s => s ≠ ""
  | none => false

/-- Split a character list at whitespace (runs produce empty chunks,
filtered by the caller). -/
def wsSplit : List Char → List (List Char)
  | [] => [[]]
  | c :: t =>
      match wsSplit t with
      | [] => []
      | w :: rest =>
          if c.isWhitespace then [] :: w :: rest else (c :: w) :: rest

/-- Join word chunks with single spaces. -/
def joinSpaceChars : List (List Char) → List Char
  | [] => []
  | [w] => w
  | w :: rest => w ++ ' ' :: joinSpaceChars rest

/-- `replace(/\s+/g, ' ').trim()`: collapse whitespace runs and strip
the ends. -/
def collapseWs (s : String) : String :=
  String.mk (joinSpaceChars ((wsSplit s.data).filter (fun w => !w.isEmpty)))

/-- `String.prototype.trim()`. -/
def jsTrim (s : String) : String :=
  String.mk (((s.data.dropWhile Char.isWhitespace).reverse.dropWhile
    Char.isWhitespace).reverse)

theorem strData_append (s t : String) : (s ++ t).data = s.data ++ t.data := by
  cases s
  cases t
  rfl

theorem renderURL_ne_empty (u : JsURL) : renderURL u ≠ "" := by
  unfold renderURL
  intro h
  have hd := congrArg String.data h
  rw [strData_append, strData_append, strData_append, strData_append] at hd
  simp [List.append_eq_nil] at hd

/-- `Extractor.normalizeDocument`: a document without a truthy url is
dropped (null); otherwise the title is whitespace-collapsed, the url is
re-serialized with cache parameters removed when it parses (kept as-is
when parsing fails), the date trimmed, and the derived id attached.
The platform URL parser is an explicit parameter. -/
def Extractor.normalizeDocument (parseUrl : String → Option JsURL)
    (d : RawDoc) : Option Document :=
  if strTruthy d.url = false then none
  else
    let title := match d.title with
      | some t => if t = "" then some t else some (collapseWs t)
      | none => none
    let url := match parseUrl (d.url.getD "") with
      | some u => renderURL (normalizeUrl u)
      | none => d.url.getD ""
    let date := match d.date with
      | some dt => if dt = "" then some dt else some (jsTrim dt)
      | none => none
    some ⟨title, url, date, none, none,
      some (Extractor.createDocId title url)⟩

/-- The per-item filter loop of `Extractor.extract`: normalize each raw
document and keep it when the result is non-null and has a truthy url
or title. -/
def Extractor.extract (parseUrl : String → Option JsURL) :
    List RawDoc → List Document
  | [] => []
  | item :: rest =>
      match Extractor.normalizeDocument parseUrl item with
      | some doc =>
          if doc.url ≠ "" ∨ strTruthy doc.title = true then
            doc :: Extractor.extract parseUrl rest
          else
            Extractor.extract parseUrl rest
      | none => Extractor.extract parseUrl rest

theorem normalizeDocument_url_ne (parseUrl : String → Option JsURL)
    (d : RawDoc) (doc : Document)
    (h : Extractor.normalizeDocument parseUrl d = some doc) : doc.url ≠ "" := by
  unfold Extractor.normalizeDocument at h
  cases ht : strTruthy d.url with
  | false => rw [ht] at h; simp at h
  | true =>
      rw [ht] at h
      simp only [Bool.true_eq_false, if_false, Option.some_inj] at h
      subst h
      simp only []
      cases hp : parseUrl (d.url.getD "") with
      | some u => simp only [hp]; exact renderURL_ne_empty (normalizeUrl u)
      | none =>
          simp only [hp]
          cases hu : d.url with
          | none => rw [hu] at ht; simp [strTruthy] at ht
          | some s =>
              rw [hu] at ht
              simp only [strTruthy, ne_eq, decide_eq_true_eq] at ht
              simpa using ht

/-- Claim C9 (counterexample): a raw document with a title but no url
is discarded by extraction — `normalizeDocument` nulls it out — so the
extractor output is empty, not a one-element list. -/
theorem extract_drops_titled_urlless :
    Extractor.extract (fun _ => none) [⟨some "A", none, none⟩] = [] := by
  rfl

/-- Claim C9 (amended): extraction keeps exactly the raw documents with
a truthy url — `normalizeDocument` returns null on any document
lacking one, title or not — and every kept document is the normalized
record with its derived id. -/
theorem extract_keeps_urls (parseUrl : String → Option JsURL)
    (items : List RawDoc) :
    Extractor.extract parseUrl items =
      items.filterMap (Extractor.normalizeDocument parseUrl) ∧
    (∀ d ∈ items,
      ((Extractor.normalizeDocument parseUrl d).isSome ↔ strTruthy d.url = true)) ∧
    (∀ d ∈ items, ∀ doc, Extractor.normalizeDocument parseUrl d = some doc →
      doc.id = some (Extractor.createDocId doc.title doc.url) ∧
      doc.hash = none) := by
  refine ⟨?_, ?_, ?_⟩
  · induction items with
    | nil => rfl
    | cons item rest ih =>
        cases hn : Extractor.normalizeDocument parseUrl item with
        | none => simp [Extractor.extract, hn, ih]
        | some doc =>
            have hcond : doc.url ≠ "" ∨ strTruthy doc.title = true :=
              Or.inl (normalizeDocument_url_ne parseUrl item doc hn)
            simp [Extractor.extract, hn, hcond, ih]
  · intro d _
    cases ht : strTruthy d.url <;>
      simp [Extractor.normalizeDocument, ht]
  · intro d _ doc h
    unfold Extractor.normalizeDocument at h
    cases ht : strTruthy d.url with
    | false => rw [ht] at h; simp at h
    | true =>
        rw [ht] at h
        simp only [Bool.true_eq_false, if_false, Option.some_inj] at h
        subst h
        exact ⟨rfl, rfl⟩

/-- Witness for the amended C9 at a concrete input: a document with a
url is kept and the extract loop agrees with the filterMap view. -/
theorem extract_keeps_urls_witness :
    Extractor.extract (fun _ => none) [⟨some "A", some "u1", none⟩] =
      List.filterMap (Extractor.normalizeDocument (fun _ => none))
        [⟨some "A", some "u1", none⟩] ∧
    ((Extractor.normalizeDocument (fun _ => none)
        (⟨some "A", some "u1", none⟩ : RawDoc)).isSome ↔
      strTruthy ((⟨some "A", some "u1", none⟩ : RawDoc).url) = true) := by
  exact ⟨(extract_keeps_urls (fun _ => none) [⟨some "A", some "u1", none⟩]).1,
    (extract_keeps_urls (fun _ => none) [⟨some "A", some "u1", none⟩]).2.1
      ⟨some "A", some "u1", none⟩ (by simp)⟩

-- Step navigation with retry (runner/Navigator.js).  The automation
-- session is abstracted as a success oracle: `exec i a` tells whether
-- attempt `a` of step `i` succeeds.

/-- A navigation step as consumed by `navigate` (action parameters
other than the ones steering the retry loop are irrelevant here). -/
structure NavStep where
  action : String
  selector : Option String
  optional : Bool
  retries : Option Nat
  timeout : Option Nat
deriving DecidableEq

/-- `step.retries ?? 1` — default one retry, two total attempts. -/
def maxRetriesOf (s : NavStep) : Nat :=
  s.retries.getD 1

/-- Trace of one step's retry loop: final success flag, the waits (in
ms) performed between attempts, and the number of attempts made. -/
structure StepRun where
  success : Bool
  waits : List Nat
  attempts : Nat
deriving DecidableEq

/-- The inner retry loop of `navigate`: try the attempt; on failure,
wait `1000 * (attempt + 1)` ms and retry while `attempt <
maxRetries`. -/
def runAttempts (exec1 : Nat → Bool) (maxRetries attempt : Nat) : StepRun :=
  if exec1 attempt then ⟨true, [], 1⟩
  else if h : attempt < maxRetries then
    let r := runAttempts exec1 maxRetries (attempt + 1)
    ⟨r.success, 1000 * (attempt + 1) :: r.waits, r.attempts + 1⟩
  else ⟨false, [], 1⟩
termination_by maxRetries - attempt

/-- The whole retry loop for one step, starting at attempt 0. -/
def runStep (exec1 : Nat → Bool) (s : NavStep) : StepRun :=
  runAttempts exec1 (maxRetriesOf s) 0

/-- Outcome of `navigate`: normal return, or a NavigationError carrying
the failing step and its index. -/
inductive NavOutcome where
  | ok
  | err (step : NavStep) (stepIndex : Nat)
deriving DecidableEq

/-- The outer loop of `navigate` from absolute step index `i`: an
exhausted step is skipped when optional and aborts the sequence
otherwise. -/
def navigateFrom (exec : Nat → Nat → Bool) (i : Nat) : List NavStep → NavOutcome
  | [] => .ok
  | s :: rest =>
      if (runStep (exec i) s).success then navigateFrom exec (i + 1) rest
      else if s.optional then navigateFrom exec (i + 1) rest
      else .err s i

/-- `Navigator.navigate`. -/
def Navigator.navigate (exec : Nat → Nat → Bool) (steps : List NavStep) : NavOutcome :=
  navigateFrom exec 0 steps

theorem runAttempts_attempts_le (exec1 : Nat → Bool) (m a : Nat) (h : a ≤ m) :
    (runAttempts exec1 m a).attempts ≤ m + 1 - a := by
  generalize hk : m - a = k
  induction k generalizing a with
  | zero =>
      unfold runAttempts
      have hlt : ¬ a < m := by omega
      by_cases he : exec1 a = true <;> simp [he, hlt] <;> omega
  | succ k ih =>
      unfold runAttempts
      have hlt : a < m := by omega
      by_cases he : exec1 a = true
      · simp [he]
        omega
      · simp only [he, Bool.false_eq_true, if_false, dif_pos hlt]
        have h2 := ih (a + 1) (by omega) (by omega)
        show (runAttempts exec1 m (a + 1)).attempts + 1 ≤ m + 1 - a
        omega

theorem runAttempts_attempts_pos (exec1 : Nat → Bool) (m a : Nat) :
    1 ≤ (runAttempts exec1 m a).attempts := by
  unfold runAttempts
  by_cases he : exec1 a = true
  · simp [he]
  · by_cases hlt : a < m
    · simp [he, hlt]
    · simp [he, hlt]

theorem runAttempts_waits (exec1 : Nat → Bool) (m a : Nat) :
    (runAttempts exec1 m a).waits =
      (List.range ((runAttempts exec1 m a).attempts - 1)).map
        (fun j => 1000 * (a + j + 1)) := by
  generalize hk : m - a = k
  induction k generalizing a with
  | zero =>
      unfold runAttempts
      have hlt : ¬ a < m := by omega
      by_cases he : exec1 a = true <;> simp [he, hlt]
  | succ k ih =>
      unfold runAttempts
      have hlt : a < m := by omega
      by_cases he : exec1 a = true
      · simp [he]
      · simp only [he, Bool.false_eq_true, if_false, dif_pos hlt]
        have hpos := runAttempts_attempts_pos exec1 m (a + 1)
        have hw := ih (a + 1) (by omega)
        obtain ⟨n, hn⟩ : ∃ n, (runAttempts exec1 m (a + 1)).attempts = n + 1 :=
          ⟨(runAttempts exec1 m (a + 1)).attempts - 1, by omega⟩
        show 1000 * (a + 1) :: (runAttempts exec1 m (a + 1)).waits =
          List.map (fun j => 1000 * (a + j + 1))
            (List.range ((runAttempts exec1 m (a + 1)).attempts + 1 - 1))
        rw [hw, hn, Nat.add_sub_cancel, Nat.add_sub_cancel,
          List.range_succ_eq_map, List.map_cons, List.map_map]
        have hfun : (fun j => 1000 * (a + j + 1)) ∘ Nat.succ =
            (fun j => 1000 * (a + 1 + j + 1)) := by
          funext j
          simp only [Function.comp_apply]
          omega
        rw [hfun]

theorem runAttempts_success_iff (exec1 : Nat → Bool) (m a : Nat) (h : a ≤ m) :
    ((runAttempts exec1 m a).success = true ↔
      ∃ k, a ≤ k ∧ k ≤ m ∧ exec1 k = true) := by
  generalize hk : m - a = k
  induction k generalizing a with
  | zero =>
      have ha : a = m := by omega
      unfold runAttempts
      have hlt : ¬ a < m := by omega
      by_cases he : exec1 a = true
      · simp only [he, if_true]
        exact ⟨fun _ => ⟨a, le_refl a, by omega, he⟩, fun _ => by simp⟩
      · simp only [he, Bool.false_eq_true, if_false, dif_neg hlt]
        constructor
        · intro hfalse
          exact absurd hfalse (by simp)
        · intro ⟨j, hj1, hj2, hj3⟩
          have : j = a := by omega
          rw [this] at hj3
          exact absurd hj3 he
  | succ k ih =>
      unfold runAttempts
      have hlt : a < m := by omega
      by_cases he : exec1 a = true
      · simp only [he, if_true]
        exact ⟨fun _ => ⟨a, le_refl a, by omega, he⟩, fun _ => by simp⟩
      · simp only [he, Bool.false_eq_true, if_false, dif_pos hlt]
        show ((runAttempts exec1 m (a + 1)).success = true ↔ _)
        rw [ih (a + 1) (by omega) (by omega)]
        constructor
        · intro ⟨j, hj1, hj2, hj3⟩
          exact ⟨j, by omega, hj2, hj3⟩
        · intro ⟨j, hj1, hj2, hj3⟩
          refine ⟨j, ?_, hj2, hj3⟩
          rcases Nat.eq_or_lt_of_le hj1 with heq | hlt2
          · rw [← heq] at hj3
            exact absurd hj3 he
          · omega

theorem navigateFrom_ok_iff (exec : Nat → Nat → Bool) (l : List NavStep) (i : Nat) :
    (navigateFrom exec i l = .ok ↔
      ∀ j s, l.get? j = some s →
        ((runStep (exec (i + j)) s).success = true ∨ s.optional = true)) := by
  induction l generalizing i with
  | nil => simp [navigateFrom]
  | cons c rest ih =>
      unfold navigateFrom
      by_cases hs : (runStep (exec i) c).success = true
      · rw [if_pos hs, ih (i + 1)]
        constructor
        · intro hall j s hget
          cases j with
          | zero =>
              simp only [List.get?_cons_zero, Option.some_inj] at hget
              subst hget
              exact Or.inl (by simpa using hs)
          | succ j =>
              simp only [List.get?_cons_succ] at hget
              have := hall j s hget
              simpa [Nat.add_assoc, Nat.add_comm 1 j] using this
        · intro hall j s hget
          have := hall (j + 1) s (by simpa using hget)
          simpa [Nat.add_assoc, Nat.add_comm 1 j] using this
      · rw [if_neg hs]
        by_cases ho : c.optional = true
        · rw [if_pos ho, ih (i + 1)]
          constructor
          · intro hall j s hget
            cases j with
            | zero =>
                simp only [List.get?_cons_zero, Option.some_inj] at hget
                subst hget
                exact Or.inr ho
            | succ j =>
                simp only [List.get?_cons_succ] at hget
                have := hall j s hget
                simpa [Nat.add_assoc, Nat.add_comm 1 j] using this
          · intro hall j s hget
            have := hall (j + 1) s (by simpa using hget)
            simpa [Nat.add_assoc, Nat.add_comm 1 j] using this
        · rw [if_neg ho]
          constructor
          · intro hfalse
            exact absurd hfalse (by simp)
          · intro hall
            have := hall 0 c (by simp)
            simp only [Nat.add_zero] at this
            rcases this with hh | hh
            · exact absurd hh hs
            · exact absurd hh ho

theorem navigateFrom_err (exec : Nat → Nat → Bool) (l : List NavStep)
    (i : Nat) (s : NavStep) (n : Nat) (h : navigateFrom exec i l = .err s n) :
    ∃ j, n = i + j ∧ l.get? j = some s ∧
      (runStep (exec n) s).success = false ∧ s.optional = false ∧
      ∀ m t, m < j → l.get? m = some t →
        ((runStep (exec (i + m)) t).success = true ∨ t.optional = true) := by
  induction l generalizing i with
  | nil => simp [navigateFrom] at h
  | cons c rest ih =>
      unfold navigateFrom at h
      by_cases hs : (runStep (exec i) c).success = true
      · rw [if_pos hs] at h
        obtain ⟨j, hn, hget, hsf, hopt, hprior⟩ := ih (i + 1) h
        refine ⟨j + 1, by omega, by simpa using hget, hsf, hopt, ?_⟩
        intro m t hm hget2
        cases m with
        | zero =>
            simp only [List.get?_cons_zero, Option.some_inj] at hget2
            subst hget2
            exact Or.inl (by simpa using hs)
        | succ m =>
            simp only [List.get?_cons_succ] at hget2
            have := hprior m t (by omega) hget2
            simpa [Nat.add_assoc, Nat.add_comm 1 m] using this
      · rw [if_neg hs] at h
        by_cases ho : c.optional = true
        · rw [if_pos ho] at h
          obtain ⟨j, hn, hget, hsf, hopt, hprior⟩ := ih (i + 1) h
          refine ⟨j + 1, by omega, by simpa using hget, hsf, hopt, ?_⟩
          intro m t hm hget2
          cases m with
          | zero =>
              simp only [List.get?_cons_zero, Option.some_inj] at hget2
              subst hget2
              exact Or.inr ho
          | succ m =>
              simp only [List.get?_cons_succ] at hget2
              have := hprior m t (by omega) hget2
              simpa [Nat.add_assoc, Nat.add_comm 1 m] using this
        · rw [if_neg ho] at h
          simp only [NavOutcome.err.injEq] at h
          obtain ⟨hcs, hin⟩ := h
          subst hcs
          refine ⟨0, by omega, by simp, ?_, by simpa using ho, ?_⟩
          · rw [hin] at hs
            simpa using hs
          · intro m t hm _
            omega

/-- Claim C8: navigate attempts each step at most `1 + step.retries`
times (default one retry), the waits between attempts are
`1000 ms × attemptNumber`, a step succeeds exactly when some attempt
within the budget succeeds, the whole sequence returns normally exactly
when every step succeeds or is optional (exhausted optional steps are
skipped), and an abort raises a NavigationError carrying the first
exhausted non-optional step and its index, every earlier step having
succeeded or been optional. -/
theorem navigate_retry_skip_abort (exec : Nat → Nat → Bool) (steps : List NavStep) :
    (∀ i s, steps.get? i = some s →
      (runStep (exec i) s).attempts ≤ 1 + maxRetriesOf s ∧
      (runStep (exec i) s).waits =
        (List.range ((runStep (exec i) s).attempts - 1)).map
          (fun j => 1000 * (j + 1)) ∧
      ((runStep (exec i) s).success = true ↔
        ∃ k, k ≤ maxRetriesOf s ∧ exec i k = true)) ∧
    (Navigator.navigate exec steps = .ok ↔
      ∀ i s, steps.get? i = some s →
        ((runStep (exec i) s).success = true ∨ s.optional = true)) ∧
    (∀ s i, Navigator.navigate exec steps = .err s i →
      steps.get? i = some s ∧ (runStep (exec i) s).success = false ∧
      s.optional = false ∧
      ∀ j t, j < i → steps.get? j = some t →
        ((runStep (exec j) t).success = true ∨ t.optional = true)) := by
  refine ⟨?_, ?_, ?_⟩
  · intro i s _
    refine ⟨?_, ?_, ?_⟩
    · have := runAttempts_attempts_le (exec i) (maxRetriesOf s) 0 (Nat.zero_le _)
      unfold runStep
      omega
    · have := runAttempts_waits (exec i) (maxRetriesOf s) 0
      unfold runStep
      simpa using this
    · have := runAttempts_success_iff (exec i) (maxRetriesOf s) 0 (Nat.zero_le _)
      unfold runStep
      rw [this]
      constructor
      · intro ⟨k, _, hk2, hk3⟩
        exact ⟨k, hk2, hk3⟩
      · intro ⟨k, hk2, hk3⟩
        exact ⟨k, Nat.zero_le k, hk2, hk3⟩
  · unfold Navigator.navigate
    rw [navigateFrom_ok_iff]
    constructor
    · intro hall i s hget
      simpa using hall i s hget
    · intro hall i s hget
      simpa using hall i s hget
  · intro s i h
    obtain ⟨j, hn, hget, hsf, hopt, hprior⟩ :=
      navigateFrom_err exec steps 0 s i h
    have hj : j = i := by omega
    subst hj
    refine ⟨hget, hsf, hopt, ?_⟩
    intro m t hm hget2
    simpa using hprior m t hm hget2

/-- Witness for C8 at a concrete input: a step whose first attempt
fails and second succeeds is a success under the default single
retry. -/
theorem navigate_retry_skip_abort_witness :
    (runStep ((fun _ a => decide (a = 1)) 0)
      (⟨"click", some "#b", false, none, none⟩ : NavStep)).success = true := by
  exact ((navigate_retry_skip_abort (fun _ a => decide (a = 1))
    [⟨"click", some "#b", false, none, none⟩]).1 0
    ⟨"click", some "#b", false, none, none⟩ rfl).2.2.mpr
    ⟨1, by decide, by decide⟩

/-- Witness for C10 at a concrete input: with an empty previous
snapshot and two distinct current documents, the bucket sizes sum to
two. -/
theorem diff_partition_witness :
    (diffLists [] [⟨some "A", "u1", none, none, none, none⟩,
        ⟨some "B", "u2", none, none, none, none⟩]).new.length +
      (diffLists [] [⟨some "A", "u1", none, none, none, none⟩,
        ⟨some "B", "u2", none, none, none, none⟩]).updated.length +
      (diffLists [] [⟨some "A", "u1", none, none, none, none⟩,
        ⟨some "B", "u2", none, none, none, none⟩]).unchanged.length = 2 := by
  exact (diff_partition [] [⟨some "A", "u1", none, none, none, none⟩,
    ⟨some "B", "u2", none, none, none, none⟩]).1
